import Mathlib

/-!
Shallow embedding of the rmbg background-removal core (Go package rmbg).

Machine integers are modelled as `Nat`/`Int`; Go float32/float64 arithmetic
is modelled exactly over `ℚ` (and over `ℝ` for the transcendental sigmoid
values), with Go float-to-int conversion modelled as truncation toward zero.
Fallible operations (nil mask, out-of-range array index) return
`Option`/`Except`.
-/

namespace RMBG

/-- Go `int(f)` conversion for a rational `f`: truncation toward zero. -/
def truncQ (q : ℚ) : ℤ :=
  if q < 0 then -Int.floor (-q) else Int.floor q

/-- Go `int(f)` conversion for a real `f`: truncation toward zero. -/
noncomputable def truncR (x : ℝ) : ℤ :=
  if x < 0 then -Int.floor (-x) else Int.floor x

/-! ## Sigmoid lookup table (rmbg.go, `init` and `sigmoidLUT`)

The source initializes the process-wide table with
`for i := range 255 { v := float32(i)/255.0*12.0 - 6.0; sigmoidLUT[i] = 1.0/(1.0+exp(-v)) }`,
so indices 0..254 hold logistic-sigmoid values and index 255 keeps the
zero value of the array. -/

/-- The process-wide sigmoid lookup table after `init` has run: entries
`0..254` are set by the loop `for i := range 255`, entry `255` keeps the
array's zero value. -/
noncomputable def sigmoidLUT (i : ℕ) : ℝ :=
  if i < 255 then (1 + Real.exp (-((i : ℝ) / 255 * 12 - 6)))⁻¹ else 0

/-! ## Otsu threshold (rmbg.go, `otsuThreshold`) -/

/-- Histogram index expression `int((v+6.0)/12.0*255.0)` from
`otsuThreshold`; the source applies no clamping to this value before using
it to index `sigmoidLUT`. -/
def binIndex (v : ℚ) : ℤ :=
  truncQ ((v + 6) / 12 * 255)

/-- The 8-bit histogram bin of one logit value: look up the sigmoid table
at the (unclamped) index, then `val := int(s*255); val = max(val,0);
val = min(val,255)`.  An index outside `0..255` is an out-of-range array
access in Go (a runtime panic), modelled as `none`. -/
noncomputable def binOf (v : ℚ) : Option ℕ :=
  let idx := binIndex v
  if 0 ≤ idx ∧ idx < 256 then
    let s := sigmoidLUT idx.toNat
    let val : ℤ := truncR (s * 255)
    some (min 255 (max 0 val)).toNat
  else none

/-- The list of histogram bins of a data sequence, in input order; `none`
when any value indexes the sigmoid table out of bounds. -/
noncomputable def histBins : List ℚ → Option (List ℕ)
  | [] => some []
  | v :: rest =>
    match binOf v, histBins rest with
    | some b, some bs => some (b :: bs)
    | _, _ => none

/-- The quantity `sum` of `otsuThreshold`: `for t := range 255 { sum += t*hist[t] }`. -/
def otsuSum (hist : ℕ → ℕ) : ℕ :=
  ∑ t ∈ Finset.range 255, t * hist t

/-- The mutable loop state of `otsuThreshold`: `sumB, wB, varMax, threshold`. -/
structure OtsuState where
  sumB : ℕ
  wB : ℕ
  varMax : ℚ
  threshold : ℕ
deriving DecidableEq

/-- The selection loop `for t := range 255` of `otsuThreshold`, written with
explicit fuel (the loop runs `t = 0, …, 254`).  `continue` when `wB = 0`,
`break` when `wF = 0`, and the between-class variance
`float64(wB)*float64(wF)*(mB-mF)*(mB-mF)` is compared strictly against
`varMax`. -/
def otsuGo (hist : ℕ → ℕ) (total : ℕ) (sum : ℕ) :
    ℕ → ℕ → OtsuState → OtsuState
  | 0, _, s => s
  | fuel + 1, t, s =>
    let wB := s.wB + hist t
    if wB = 0 then
      otsuGo hist total sum fuel (t + 1) { s with wB := wB }
    else
      let wF : ℤ := (total : ℤ) - (wB : ℤ)
      if wF = 0 then { s with wB := wB }
      else
        let sumB := s.sumB + t * hist t
        let mB : ℚ := (sumB : ℚ) / (wB : ℚ)
        let mF : ℚ := ((sum : ℚ) - (sumB : ℚ)) / (wF : ℚ)
        let varBetween : ℚ := (wB : ℚ) * (wF : ℚ) * (mB - mF) * (mB - mF)
        if s.varMax < varBetween then
          otsuGo hist total sum fuel (t + 1) ⟨sumB, wB, varBetween, t⟩
        else
          otsuGo hist total sum fuel (t + 1) { s with sumB := sumB, wB := wB }

/-- The selected split of `otsuThreshold` as a function of the histogram
and the number of data points. -/
def otsuCore (hist : ℕ → ℕ) (total : ℕ) : ℕ :=
  (otsuGo hist total (otsuSum hist) 255 0 ⟨0, 0, 0, 0⟩).threshold

/-- Model of `otsuThreshold(data)`: build the 256-bin histogram of the sigmoid
values, select the split maximizing between-class variance, and return
`float32(threshold) / 255.0`.  `none` models the runtime panic on a
sigmoid-table index out of range. -/
noncomputable def otsuThreshold (data : List ℚ) : Option ℚ :=
  (histBins data).map fun bins =>
    ((otsuCore (fun t => bins.count t) data.length : ℚ) / 255)

/-! ## Object bounds detection (crop source file, `detectObjectBounds`)

A mask is a zero-origin single-channel grid, as produced by
`image.NewGray(image.Rect(0, 0, w, h))` everywhere in the package. -/

/-- A zero-origin 8-bit single-channel image: width, height, and the pixel
value at each coordinate. -/
structure GrayImage where
  w : ℕ
  h : ℕ
  pix : ℕ → ℕ → ℕ

/-- The running min/max state of the `detectObjectBounds` scan. -/
structure ScanState where
  minX : ℕ
  minY : ℕ
  maxX : ℕ
  maxY : ℕ
  found : Bool
deriving DecidableEq

/-- One step of the `detectObjectBounds` scan: if the pixel is at or above
the threshold, update the running bounds and set `foundPixel`. -/
def scanUpd (m : GrayImage) (thr : ℕ) (st : ScanState) (x y : ℕ) : ScanState :=
  if thr ≤ m.pix x y then
    ⟨min st.minX x, min st.minY y, max st.maxX x, max st.maxY y, true⟩
  else st

/-- The full-grid scan of `detectObjectBounds`: `y` outer, `x` inner,
starting from `minX, minY := bounds.Max.X, bounds.Max.Y` and
`maxX, maxY := 0, 0` with `foundPixel := false`. -/
def detectScan (m : GrayImage) (thr : ℕ) : ScanState :=
  (List.range m.h).foldl
    (fun st y => (List.range m.w).foldl (fun st x => scanUpd m thr st x y) st)
    ⟨m.w, m.h, 0, 0, false⟩

/-- The `objectBounds` record of the source. -/
structure objectBounds where
  MinX : ℕ
  MinY : ℕ
  MaxX : ℕ
  MaxY : ℕ
  Width : ℕ
  Height : ℕ
  CenterX : ℕ
  CenterY : ℕ
deriving DecidableEq

/-- Model of `detectObjectBounds(mask, minThreshold)`; `none` models the
`found = false` return. -/
def detectObjectBounds (m : GrayImage) (thr : ℕ) : Option objectBounds :=
  let s := detectScan m thr
  if s.found then
    some ⟨s.minX, s.minY, s.maxX, s.maxY,
      s.maxX - s.minX, s.maxY - s.minY,
      s.minX + (s.maxX - s.minX) / 2, s.minY + (s.maxY - s.minY) / 2⟩
  else none

/-! ## Crop geometry (crop source file, `crop`) -/

/-- The `CropConfig` record of the source. -/
structure CropConfig where
  Margin : ℤ
  MarginPercent : ℚ
  MinThreshold : ℕ
  SquareCrop : Bool

/-- An axis-aligned rectangle `(minX, minY)-(maxX, maxY)` in image space. -/
structure Rect where
  minX : ℤ
  minY : ℤ
  maxX : ℤ
  maxY : ℤ
deriving DecidableEq

/-- The two error conditions of `crop`. -/
inductive CropError where
  | invalidMask
  | noObject
deriving DecidableEq

/-- The `SquareCrop` adjustment of `crop`: expand the shorter axis by
`diff/2` on each side (Go integer division), re-clipping to the image. -/
def squareStep (origW origH : ℕ) (r : Rect) : Rect :=
  let cropW := r.maxX - r.minX
  let cropH := r.maxY - r.minY
  if cropH < cropW then
    let diff := cropW - cropH
    { r with minY := max 0 (r.minY - diff / 2),
             maxY := min (origH : ℤ) (r.maxY + diff / 2) }
  else if cropW < cropH then
    let diff := cropH - cropW
    { r with minX := max 0 (r.minX - diff / 2),
             maxX := min (origW : ℤ) (r.maxX + diff / 2) }
  else r

/-- The mask-to-image scaling of `crop`:
`int(float64(objBounds.MinX) * scaleX)` and its three companions, with
`Width`/`Height` recomputed as `MaxX - MinX` / `MaxY - MinY` afterward. -/
def scaledBounds (ob : objectBounds) (scaleX scaleY : ℚ) : ℤ × ℤ × ℤ × ℤ :=
  (truncQ ((ob.MinX : ℚ) * scaleX), truncQ ((ob.MinY : ℚ) * scaleY),
   truncQ ((ob.MaxX : ℚ) * scaleX), truncQ ((ob.MaxY : ℚ) * scaleY))

/-- The margin computation of `crop`: the fixed `config.Margin`, and when
`config.MarginPercent > 0` also
`marginX := int(float64(scaled.Width) * config.MarginPercent)` (same for
`marginY`) with `margin = max(margin, max(marginX, marginY))`. -/
def cropMargin (cfg : CropConfig) (sW sH : ℤ) : ℤ :=
  if 0 < cfg.MarginPercent then
    max cfg.Margin
      (max (truncQ ((sW : ℚ) * cfg.MarginPercent))
           (truncQ ((sH : ℚ) * cfg.MarginPercent)))
  else cfg.Margin

/-- Margin expansion and clipping of `crop` for given scaled bounds:
`cropMinX := max(0, scaled.MinX - margin)` and companions. -/
def scaledRect (origW origH : ℕ) (ob : objectBounds) (cfg : CropConfig)
    (scaleX scaleY : ℚ) : Rect :=
  let s := scaledBounds ob scaleX scaleY
  let margin := cropMargin cfg (s.2.2.1 - s.1) (s.2.2.2 - s.2.1)
  ⟨max 0 (s.1 - margin), max 0 (s.2.1 - margin),
   min (origW : ℤ) (s.2.2.1 + margin), min (origH : ℤ) (s.2.2.2 + margin)⟩

/-- Bounds detection, mask-to-image scaling, margin computation and
clipping of `crop` (everything before the `SquareCrop` adjustment). -/
def marginRect (origW origH : ℕ) (m : GrayImage) (cfg : CropConfig)
    (scaleX scaleY : ℚ) : Option Rect :=
  (detectObjectBounds m cfg.MinThreshold).map fun ob =>
    scaledRect origW origH ob cfg scaleX scaleY

/-- Model of `crop(img, mask, config, scaleX, scaleY)`: nil mask and
object-not-found errors, then the crop rectangle handed to
`imaging.Crop`.  The output image is represented by its rectangle. -/
def cropModel (origW origH : ℕ) (mask : Option GrayImage) (cfg : CropConfig)
    (scaleX scaleY : ℚ) : Except CropError Rect :=
  match mask with
  | none => Except.error CropError.invalidMask
  | some m =>
    match marginRect origW origH m cfg scaleX scaleY with
    | none => Except.error CropError.noObject
    | some r =>
      Except.ok (if cfg.SquareCrop then squareStep origW origH r else r)

/-! ## Background-distance mask (mask.go, `MaskFromBackground` /
`maskFromBackground`)

A packed 4-byte-per-pixel image is a flat byte buffer with a row stride. -/

/-- A packed 4-byte-per-pixel image: the byte at linear offset `i` is
`pix i`. -/
structure PackedImage where
  w : ℕ
  h : ℕ
  stride : ℕ
  pix : ℕ → ℕ

/-- The quantity `toleranceSq := tolerance * tolerance * 257.0 * 257.0` computed by
`MaskFromBackground`. -/
def bgTolSq (tolerance : ℚ) : ℚ :=
  tolerance * tolerance * 257 * 257

/-- The squared Euclidean color distance of pixel `(x, y)` from the
reference background, with each stored 8-bit channel scaled by `scale`
into comparison space. -/
def bgDistSq (img : PackedImage) (scale : ℕ) (bgR bgG bgB : ℤ) (x y : ℕ) : ℤ :=
  let i := y * img.stride + x * 4
  let r : ℤ := (img.pix i : ℤ) * (scale : ℤ)
  let g : ℤ := (img.pix (i + 1) : ℤ) * (scale : ℤ)
  let b : ℤ := (img.pix (i + 2) : ℤ) * (scale : ℤ)
  let dr := r - bgR
  let dg := g - bgG
  let db := b - bgB
  dr * dr + dg * dg + db * db

/-- The packed fast path `maskFromBackground`: channels are read as
`int64(srcLine[i]) << 8`, i.e. scaled by 256. -/
def maskFromBackgroundPacked (img : PackedImage) (bgR bgG bgB : ℤ)
    (tolSq : ℚ) (x y : ℕ) : ℕ :=
  if tolSq < (bgDistSq img 256 bgR bgG bgB x y : ℚ) then 255 else 0

/-- The generic per-pixel fallback loop of `MaskFromBackground` applied to
the same packed image: `img.At(x, y).RGBA()` returns each stored 8-bit
channel scaled by `0x101 = 257`. -/
def maskFromBackgroundGeneric (img : PackedImage) (bgR bgG bgB : ℤ)
    (tolSq : ℚ) (x y : ℕ) : ℕ :=
  if tolSq < (bgDistSq img 257 bgR bgG bgB x y : ℚ) then 255 else 0

/-! ## Scratch-buffer pool (buffer.go, `blurBufferPool.get`) -/

/-- Lengths and capacities of one pooled pair of scratch slices. -/
structure blurBuffer where
  tmpLen : ℕ
  tmpCap : ℕ
  hPassLen : ℕ
  hPassCap : ℕ
deriving DecidableEq

/-- The zero-valued buffer produced by the pool's `New` function. -/
def blurBuffer.new : blurBuffer := ⟨0, 0, 0, 0⟩

/-- Model of `get(size)` applied to the buffer retrieved from the pool: reallocate
both slices at `size` when `cap(buf.tmp) < size`, else reslice both to
length `size`. -/
def blurBuffer.get (buf : blurBuffer) (size : ℕ) : blurBuffer :=
  if buf.tmpCap < size then ⟨size, size, size, size⟩
  else ⟨size, buf.tmpCap, size, buf.hPassCap⟩

/-! ## Parallel compositor row assignment (rmbg.go, `blendParallel`)

`chunk := (h + numCPU - 1) / numCPU`; for each `i` in `range numCPU` with a
non-empty row range the source calls `wg.Go` twice with the identical
per-row loop, so the same chunk is handed to two workers. -/

/-- The destination row lists of the concurrent workers spawned by
`blendParallel` for an image of height `h` on `numCPU` cores. -/
def blendWorkers (h numCPU : ℕ) : List (List ℕ) :=
  let chunk := (h + numCPU - 1) / numCPU
  (List.range numCPU).flatMap fun i =>
    let s := i * chunk
    let e := min (s + chunk) h
    if e ≤ s then []
    else [List.range' s (e - s), List.range' s (e - s)]

/-- How many of the spawned workers process destination row `y`. -/
def workersOnRow (h numCPU y : ℕ) : ℕ :=
  (blendWorkers h numCPU).countP fun rows => rows.contains y

/-! ## Auxiliary definitions for the proofs -/

/-- The coordinates visited by the `detectObjectBounds` scan, in loop order
(`y` outer, `x` inner). -/
def pairList (w h : ℕ) : List (ℕ × ℕ) :=
  (List.range h).flatMap fun y => (List.range w).map fun x => (x, y)

/-- A mask whose only pixels at or above threshold 10 form a single row
segment `x ∈ [10, 17]` at `y = 4` (scaled width 7, height 0): input for the
margin-rounding counterexample. -/
def marginCexMask : GrayImage :=
  ⟨20, 10, fun x y => if y = 4 ∧ 10 ≤ x ∧ x ≤ 17 then 255 else 0⟩

/-- Margin-rounding counterexample configuration: `Margin 0`,
`MarginPercent 0.4`. -/
def marginCexCfg : CropConfig := ⟨0, 2 / 5, 10, false⟩

/-- The 10×10 mask of the package's own crop tests: a 3×3 block of 255s at
`(4,4)-(6,6)`. -/
def testMask : GrayImage :=
  ⟨10, 10, fun x y => if 4 ≤ x ∧ x ≤ 6 ∧ 4 ≤ y ∧ y ≤ 6 then 255 else 0⟩

/-- A mask whose object spans `x ∈ [3, 8]`, `y ∈ [3, 5]` (crop 5×2, odd
difference 3): input for the square-crop counterexample. -/
def squareCexMask : GrayImage :=
  ⟨10, 10, fun x y => if 3 ≤ x ∧ x ≤ 8 ∧ 3 ≤ y ∧ y ≤ 5 then 255 else 0⟩

/-- The two-pixel mask of the package's own `SquareCrop` test: pixels
`(4,4)` and `(5,4)`. -/
def squareTestMask : GrayImage :=
  ⟨10, 10, fun x y => if (x = 4 ∨ x = 5) ∧ y = 4 then 255 else 0⟩

/-- The single-pixel counterexample image of the background-mask path
comparison: one pixel with stored color `(200, 0, 0, 255)`. -/
def bgCexImg : PackedImage :=
  ⟨1, 1, 4, fun i => if i = 0 then 200 else if i = 3 then 255 else 0⟩

/-- A mask with exactly one qualifying pixel, at `(5, 5)`. -/
def singlePixelMask : GrayImage :=
  ⟨10, 10, fun x y => if x = 5 ∧ y = 5 then 255 else 0⟩

/-- An all-zero mask. -/
def emptyMask : GrayImage := ⟨10, 10, fun _ _ => 0⟩

/-! ## Lemmas and claim theorems -/


lemma foldl_flatMap {α β γ : Type} (g : α → List β) (f : γ → β → γ)
    (l : List α) (i : γ) :
    (l.flatMap g).foldl f i = l.foldl (fun s a => (g a).foldl f s) i := by
  induction l generalizing i with
  | nil => rfl
  | cons a t ih => simp [List.flatMap_cons, List.foldl_append, ih]

lemma mem_pairList {w h : ℕ} {p : ℕ × ℕ} :
    p ∈ pairList w h ↔ p.1 < w ∧ p.2 < h := by
  constructor
  · intro hp
    simp only [pairList, List.mem_flatMap, List.mem_map, List.mem_range] at hp
    obtain ⟨y, hy, x, hx, rfl⟩ := hp
    exact ⟨hx, hy⟩
  · intro hp
    simp only [pairList, List.mem_flatMap, List.mem_map, List.mem_range]
    exact ⟨p.2, hp.2, p.1, hp.1, rfl⟩

lemma detectScan_eq_pairs (m : GrayImage) (thr : ℕ) :
    detectScan m thr =
      (pairList m.w m.h).foldl (fun st p => scanUpd m thr st p.1 p.2)
        ⟨m.w, m.h, 0, 0, false⟩ := by
  rw [detectScan, pairList, foldl_flatMap]
  simp [List.foldl_map]

lemma scanUpd_idem (m : GrayImage) (thr : ℕ) (st : ScanState) (x y : ℕ) :
    scanUpd m thr (scanUpd m thr st x y) x y = scanUpd m thr st x y := by
  by_cases h : thr ≤ m.pix x y
  · simp [scanUpd, h, min_assoc, max_assoc]
  · simp [scanUpd, h]

lemma scanFold_found (m : GrayImage) (thr : ℕ) (L : List (ℕ × ℕ)) (st : ScanState) :
    ((L.foldl (fun st p => scanUpd m thr st p.1 p.2) st).found = true) ↔
      (st.found = true ∨ ∃ p ∈ L, thr ≤ m.pix p.1 p.2) := by
  induction L generalizing st with
  | nil => simp
  | cons a t ih =>
    rw [List.foldl_cons, ih]
    by_cases h : thr ≤ m.pix a.1 a.2
    · simp only [scanUpd, if_pos h]
      constructor
      · intro _
        exact Or.inr ⟨a, List.mem_cons_self a t, h⟩
      · intro _
        exact Or.inl trivial
    · simp only [scanUpd, if_neg h]
      constructor
      · rintro (hf | ⟨p, hp, hq⟩)
        · exact Or.inl hf
        · exact Or.inr ⟨p, List.mem_cons_of_mem a hp, hq⟩
      · rintro (hf | ⟨p, hp, hq⟩)
        · exact Or.inl hf
        · rcases List.mem_cons.mp hp with rfl | hp2
          · exact absurd hq h
          · exact Or.inr ⟨p, hp2, hq⟩

lemma scanFold_const (m : GrayImage) (thr : ℕ) (p₀ : ℕ × ℕ) (L : List (ℕ × ℕ))
    (st : ScanState)
    (huniq : ∀ p ∈ L, thr ≤ m.pix p.1 p.2 → p = p₀) :
    L.foldl (fun st p => scanUpd m thr st p.1 p.2) (scanUpd m thr st p₀.1 p₀.2) =
      scanUpd m thr st p₀.1 p₀.2 := by
  revert huniq
  induction L with
  | nil => intro _; rfl
  | cons a t ih =>
    intro huniq
    by_cases h : thr ≤ m.pix a.1 a.2
    · have ha := huniq a (List.mem_cons_self a t) h
      subst ha
      simp only [List.foldl_cons, scanUpd_idem]
      exact ih fun p hp => huniq p (List.mem_cons_of_mem a hp)
    · simp only [List.foldl_cons, scanUpd, if_neg h]
      exact ih fun p hp => huniq p (List.mem_cons_of_mem a hp)

lemma scanFold_single (m : GrayImage) (thr : ℕ) (p₀ : ℕ × ℕ) (L : List (ℕ × ℕ))
    (st : ScanState) (hq0 : thr ≤ m.pix p₀.1 p₀.2) (hmem : p₀ ∈ L)
    (huniq : ∀ p ∈ L, thr ≤ m.pix p.1 p.2 → p = p₀) :
    L.foldl (fun st p => scanUpd m thr st p.1 p.2) st = scanUpd m thr st p₀.1 p₀.2 := by
  revert hmem huniq
  induction L with
  | nil =>
    intro hmem _
    exact absurd hmem (List.not_mem_nil p₀)
  | cons a t ih =>
    intro hmem huniq
    by_cases h : thr ≤ m.pix a.1 a.2
    · have ha := huniq a (List.mem_cons_self a t) h
      subst ha
      simp only [List.foldl_cons]
      exact scanFold_const m thr a t st fun p hp => huniq p (List.mem_cons_of_mem a hp)
    · have ha : a ≠ p₀ := fun he => h (he ▸ hq0)
      have hmem2 : p₀ ∈ t := by
        rcases List.mem_cons.mp hmem with he | ht
        · exact absurd he.symm ha
        · exact ht
      simp only [List.foldl_cons, scanUpd, if_neg h]
      exact ih hmem2 fun p hp => huniq p (List.mem_cons_of_mem a hp)

lemma scanFold_le (m : GrayImage) (thr : ℕ) (L : List (ℕ × ℕ)) (st : ScanState)
    (hst : st.found = true → st.minX ≤ st.maxX ∧ st.minY ≤ st.maxY) :
    (L.foldl (fun st p => scanUpd m thr st p.1 p.2) st).found = true →
      (L.foldl (fun st p => scanUpd m thr st p.1 p.2) st).minX ≤
        (L.foldl (fun st p => scanUpd m thr st p.1 p.2) st).maxX ∧
      (L.foldl (fun st p => scanUpd m thr st p.1 p.2) st).minY ≤
        (L.foldl (fun st p => scanUpd m thr st p.1 p.2) st).maxY := by
  induction L generalizing st with
  | nil => exact hst
  | cons a t ih =>
    simp only [List.foldl_cons]
    apply ih
    by_cases h : thr ≤ m.pix a.1 a.2
    · intro _
      simp only [scanUpd, if_pos h]
      constructor
      · exact le_trans (min_le_right _ _) (le_max_right _ _)
      · exact le_trans (min_le_right _ _) (le_max_right _ _)
    · simpa only [scanUpd, if_neg h] using hst

lemma detectObjectBounds_eq_none_iff (m : GrayImage) (thr : ℕ) :
    detectObjectBounds m thr = none ↔
      ∀ x y, x < m.w → y < m.h → m.pix x y < thr := by
  rw [detectObjectBounds]
  have hfound := scanFold_found m thr (pairList m.w m.h) ⟨m.w, m.h, 0, 0, false⟩
  rw [← detectScan_eq_pairs] at hfound
  constructor
  · intro hnone x y hx hy
    by_contra hge
    have hf : (detectScan m thr).found = true :=
      hfound.mpr (Or.inr ⟨(x, y), mem_pairList.mpr ⟨hx, hy⟩, not_lt.mp hge⟩)
    simp only [hf, if_pos] at hnone
    exact Option.noConfusion hnone
  · intro hall
    have hf : ¬ (detectScan m thr).found = true := by
      intro hf
      rcases hfound.mp hf with hfalse | ⟨p, hp, hq⟩
      · simp at hfalse
      · exact absurd hq (not_le.mpr (hall p.1 p.2 (mem_pairList.mp hp).1 (mem_pairList.mp hp).2))
    simp only [Bool.not_eq_true] at hf
    simp [hf]

lemma detectObjectBounds_single (m : GrayImage) (thr x₀ y₀ : ℕ)
    (hx : x₀ < m.w) (hy : y₀ < m.h)
    (hiff : ∀ x y, x < m.w → y < m.h → (thr ≤ m.pix x y ↔ x = x₀ ∧ y = y₀)) :
    detectObjectBounds m thr = some ⟨x₀, y₀, x₀, y₀, 0, 0, x₀, y₀⟩ := by
  have hq0 : thr ≤ m.pix x₀ y₀ := (hiff x₀ y₀ hx hy).mpr ⟨rfl, rfl⟩
  have huniq : ∀ p ∈ pairList m.w m.h, thr ≤ m.pix p.1 p.2 → p = (x₀, y₀) := by
    intro p hp hq
    have hm := mem_pairList.mp hp
    have := (hiff p.1 p.2 hm.1 hm.2).mp hq
    exact Prod.ext this.1 this.2
  have hscan : detectScan m thr =
      scanUpd m thr ⟨m.w, m.h, 0, 0, false⟩ x₀ y₀ := by
    rw [detectScan_eq_pairs]
    exact scanFold_single m thr (x₀, y₀) (pairList m.w m.h) _ hq0
      (mem_pairList.mpr ⟨hx, hy⟩) huniq
  have hupd : scanUpd m thr ⟨m.w, m.h, 0, 0, false⟩ x₀ y₀ =
      ⟨x₀, y₀, x₀, y₀, true⟩ := by
    simp only [scanUpd, if_pos hq0]
    congr 1
    · exact min_eq_right (le_of_lt hx)
    · exact min_eq_right (le_of_lt hy)
    · exact max_eq_right (Nat.zero_le x₀)
    · exact max_eq_right (Nat.zero_le y₀)
  rw [detectObjectBounds, hscan, hupd]
  simp

lemma detectObjectBounds_extent (m : GrayImage) (thr : ℕ) (b : objectBounds)
    (hb : detectObjectBounds m thr = some b) :
    b.Width = b.MaxX - b.MinX ∧ b.Height = b.MaxY - b.MinY ∧
      b.MinX ≤ b.MaxX ∧ b.MinY ≤ b.MaxY := by
  rw [detectObjectBounds] at hb
  by_cases hf : (detectScan m thr).found = true
  · rw [if_pos hf] at hb
    have hle : (detectScan m thr).minX ≤ (detectScan m thr).maxX ∧
        (detectScan m thr).minY ≤ (detectScan m thr).maxY := by
      rw [detectScan_eq_pairs] at hf ⊢
      exact scanFold_le m thr (pairList m.w m.h) ⟨m.w, m.h, 0, 0, false⟩
        (fun hfalse => Bool.noConfusion hfalse) hf
    obtain rfl := Option.some.inj hb
    exact ⟨rfl, rfl, hle.1, hle.2⟩
  · rw [if_neg hf] at hb
    exact Option.noConfusion hb

/-- C10: a mask in which exactly one pixel is at or above `minThreshold`
is reported as a found object with `MinX = MaxX`, `MinY = MaxY`,
`Width = 0` and `Height = 0` — a successful detection can be a
zero-extent rectangle; and in general every found `objectBounds` has
`Width = MaxX - MinX` and `Height = MaxY - MinY` (with `MinX ≤ MaxX` and
`MinY ≤ MaxY`), one less than the number of pixel columns/rows the
object covers. -/
theorem detect_single_pixel_spec :
    (∀ (m : GrayImage) (thr x₀ y₀ : ℕ), x₀ < m.w → y₀ < m.h →
      (∀ x y, x < m.w → y < m.h → (thr ≤ m.pix x y ↔ x = x₀ ∧ y = y₀)) →
      detectObjectBounds m thr = some ⟨x₀, y₀, x₀, y₀, 0, 0, x₀, y₀⟩) ∧
    (∀ (m : GrayImage) (thr : ℕ) (b : objectBounds),
      detectObjectBounds m thr = some b →
      b.Width = b.MaxX - b.MinX ∧ b.Height = b.MaxY - b.MinY ∧
        b.MinX ≤ b.MaxX ∧ b.MinY ≤ b.MaxY) :=
  ⟨detectObjectBounds_single, detectObjectBounds_extent⟩

/-- Witness for C10 at a concrete input: the 10×10 mask whose only
qualifying pixel is `(5, 5)` is detected as the zero-extent rectangle at
`(5, 5)`. -/
theorem detect_single_pixel_spec_witness :
    detectObjectBounds singlePixelMask 10 = some ⟨5, 5, 5, 5, 0, 0, 5, 5⟩ ∧
    (⟨5, 5, 5, 5, 0, 0, 5, 5⟩ : objectBounds).Width =
      (⟨5, 5, 5, 5, 0, 0, 5, 5⟩ : objectBounds).MaxX -
        (⟨5, 5, 5, 5, 0, 0, 5, 5⟩ : objectBounds).MinX := by
  have hiff : ∀ x y, x < singlePixelMask.w → y < singlePixelMask.h →
      (10 ≤ singlePixelMask.pix x y ↔ x = 5 ∧ y = 5) := by
    intro x y _ _
    by_cases h : x = 5 ∧ y = 5 <;> simp [singlePixelMask, h]
  constructor
  · exact detect_single_pixel_spec.1 singlePixelMask 10 5 5 (by decide) (by decide) hiff
  · exact (detect_single_pixel_spec.2 singlePixelMask 10 _
      (detect_single_pixel_spec.1 singlePixelMask 10 5 5 (by decide) (by decide) hiff)).1

lemma cropModel_eval (origW origH : ℕ) (m : GrayImage) (cfg : CropConfig)
    (sx sy : ℚ) (ob : objectBounds)
    (hdet : detectObjectBounds m cfg.MinThreshold = some ob) :
    cropModel origW origH (some m) cfg sx sy =
      Except.ok (if cfg.SquareCrop
        then squareStep origW origH (scaledRect origW origH ob cfg sx sy)
        else scaledRect origW origH ob cfg sx sy) := by
  simp only [cropModel, marginRect, hdet, Option.map_some']

lemma cropModel_noObject (origW origH : ℕ) (m : GrayImage) (cfg : CropConfig)
    (sx sy : ℚ) (hdet : detectObjectBounds m cfg.MinThreshold = none) :
    cropModel origW origH (some m) cfg sx sy = Except.error CropError.noObject := by
  simp only [cropModel, marginRect, hdet, Option.map_none']

/-- C7: `crop` fails in exactly two cases and succeeds otherwise: the
invalid-mask error occurs exactly on a nil mask (checked first, before any
bounds detection), the no-object error occurs exactly when no mask pixel
reaches `MinThreshold`, and in every other case a cropped rectangle is
returned with no error. -/
theorem crop_error_characterization :
    ∀ (origW origH : ℕ) (mask : Option GrayImage) (cfg : CropConfig) (sx sy : ℚ),
      (cropModel origW origH mask cfg sx sy = Except.error CropError.invalidMask ↔
        mask = none) ∧
      (cropModel origW origH mask cfg sx sy = Except.error CropError.noObject ↔
        ∃ m, mask = some m ∧ ∀ x y, x < m.w → y < m.h → m.pix x y < cfg.MinThreshold) ∧
      ((∃ m, mask = some m ∧ ∃ x y, x < m.w ∧ y < m.h ∧ cfg.MinThreshold ≤ m.pix x y) →
        ∃ r, cropModel origW origH mask cfg sx sy = Except.ok r) := by
  intro origW origH mask cfg sx sy
  cases mask with
  | none =>
    refine ⟨by simp [cropModel], ?_, ?_⟩
    · constructor
      · intro h
        exact absurd h (by simp [cropModel])
      · rintro ⟨m, hm, _⟩
        exact Option.noConfusion hm
    · rintro ⟨m, hm, _⟩
      exact Option.noConfusion hm
  | some m =>
    by_cases hdet : detectObjectBounds m cfg.MinThreshold = none
    · rw [cropModel_noObject origW origH m cfg sx sy hdet]
      refine ⟨?_, ?_, ?_⟩
      · constructor
        · intro h
          exact absurd h (by simp)
        · intro h
          exact Option.noConfusion h
      · constructor
        · intro _
          exact ⟨m, rfl, (detectObjectBounds_eq_none_iff m cfg.MinThreshold).mp hdet⟩
        · intro _
          rfl
      · rintro ⟨m2, hm2, x, y, hx, hy, hq⟩
        obtain rfl := Option.some.inj hm2
        exact absurd hq
          (not_le.mpr ((detectObjectBounds_eq_none_iff m cfg.MinThreshold).mp hdet x y hx hy))
    · obtain ⟨ob, hob⟩ := Option.ne_none_iff_exists'.mp hdet
      rw [cropModel_eval origW origH m cfg sx sy ob hob]
      refine ⟨?_, ?_, ?_⟩
      · constructor
        · intro h
          exact Except.noConfusion h
        · intro h
          exact Option.noConfusion h
      · constructor
        · intro h
          exact Except.noConfusion h
        · rintro ⟨m2, hm2, hall⟩
          obtain rfl := Option.some.inj hm2
          exact absurd ((detectObjectBounds_eq_none_iff m cfg.MinThreshold).mpr hall) hdet
      · intro _
        exact ⟨_, rfl⟩

/-- Witness for C7 at concrete inputs: a nil mask gives the invalid-mask
error, an all-zero mask gives the no-object error, and the test mask with
a qualifying pixel gives a successful crop. -/
theorem crop_error_characterization_witness :
    cropModel 100 100 none ⟨0, 0, 10, false⟩ 1 1 = Except.error CropError.invalidMask ∧
    cropModel 100 100 (some emptyMask) ⟨0, 0, 10, false⟩ 1 1 =
      Except.error CropError.noObject ∧
    ∃ r, cropModel 100 100 (some testMask) ⟨0, 0, 10, false⟩ 1 1 = Except.ok r := by
  refine ⟨?_, ?_, ?_⟩
  · exact (crop_error_characterization 100 100 none ⟨0, 0, 10, false⟩ 1 1).1.mpr rfl
  · exact (crop_error_characterization 100 100 (some emptyMask) ⟨0, 0, 10, false⟩ 1 1).2.1.mpr
      ⟨emptyMask, rfl, by intro x y _ _; simp [emptyMask]⟩
  · exact (crop_error_characterization 100 100 (some testMask) ⟨0, 0, 10, false⟩ 1 1).2.2
      ⟨testMask, rfl, 4, 4, by decide⟩

/-- C5 counterexample: for an object of scaled width 7 and height 0 with
`Margin 0` and `MarginPercent 0.4`, the code expands by
`int(7 × 0.4) = 2` (truncation), not by `round(7 × 0.4) = 3` as the claim
states, so the crop rectangle is (8,2)-(19,6) and not (7,1)-(20,7). -/
theorem crop_margin_round_counterexample :
    cropModel 100 100 (some marginCexMask) marginCexCfg 1 1 = Except.ok ⟨8, 2, 19, 6⟩ ∧
    round ((7 : ℚ) * (2 / 5)) = 3 ∧
    cropModel 100 100 (some marginCexMask) marginCexCfg 1 1 ≠
      Except.ok ⟨10 - 3, 4 - 3, 17 + 3, 4 + 3⟩ := by
  have hdet : detectObjectBounds marginCexMask 10 = some ⟨10, 4, 17, 4, 7, 0, 13, 4⟩ := by
    decide
  have heval : cropModel 100 100 (some marginCexMask) marginCexCfg 1 1 =
      Except.ok ⟨8, 2, 19, 6⟩ := by
    rw [cropModel_eval 100 100 marginCexMask marginCexCfg 1 1 _ hdet]
    norm_num [marginCexCfg, scaledRect, scaledBounds, cropMargin, truncQ, Rect.mk.injEq]
  refine ⟨heval, by rw [round_eq]; norm_num, ?_⟩
  rw [heval]
  intro h
  exact absurd (Except.ok.inj h) (by decide)

/-- C6 counterexample: a 5×2 margin-padded crop with `SquareCrop` set has
odd difference 3, expands by `3/2 = 1` on each side entirely inside the
20×20 image (no edge truncation), and yields the 5×4 rectangle
(3,2)-(8,6) whose width does not equal its height. -/
theorem crop_square_odd_counterexample :
    cropModel 20 20 (some squareCexMask) ⟨0, 0, 10, true⟩ 1 1 = Except.ok ⟨3, 2, 8, 6⟩ ∧
    (0 : ℤ) ≤ 3 - 3 / 2 ∧ (5 : ℤ) + 3 / 2 ≤ 20 ∧
    (8 : ℤ) - 3 ≠ 6 - 2 := by
  have hdet : detectObjectBounds squareCexMask 10 = some ⟨3, 3, 8, 5, 5, 2, 5, 4⟩ := by
    decide
  have heval : cropModel 20 20 (some squareCexMask) ⟨0, 0, 10, true⟩ 1 1 =
      Except.ok ⟨3, 2, 8, 6⟩ := by
    rw [cropModel_eval 20 20 squareCexMask ⟨0, 0, 10, true⟩ 1 1 _ hdet]
    have hsr : scaledRect 20 20 ⟨3, 3, 8, 5, 5, 2, 5, 4⟩ ⟨0, 0, 10, true⟩ 1 1 =
        ⟨3, 3, 8, 5⟩ := by
      norm_num [scaledRect, scaledBounds, cropMargin, truncQ, Rect.mk.injEq]
    rw [if_pos rfl, hsr]
    norm_num [squareStep, Rect.mk.injEq]
  exact ⟨heval, by decide, by decide, by decide⟩

/-- C5 amended: `crop` expands the scaled object bounds on all four sides
by the fixed `Margin` when `MarginPercent` is 0, and otherwise by the
maximum of the fixed `Margin` and the larger of the two per-axis percent
margins computed with truncation toward zero (not rounding):
`int(MarginPercent × scaled width)` and `int(MarginPercent × scaled
height)`.  Concretely, for the object spanning (40,40)-(60,60) of a
100×100 image, `Margin 0` yields a 20×20 crop, `Margin 5` yields 30×30,
and `MarginPercent 0.5` with `Margin 0` yields 40×40. -/
theorem crop_margin_trunc_spec :
    cropModel 100 100 (some testMask) ⟨0, 0, 10, false⟩ 10 10 =
      Except.ok ⟨40, 40, 60, 60⟩ ∧
    cropModel 100 100 (some testMask) ⟨5, 0, 10, false⟩ 10 10 =
      Except.ok ⟨35, 35, 65, 65⟩ ∧
    cropModel 100 100 (some testMask) ⟨0, 1 / 2, 10, false⟩ 10 10 =
      Except.ok ⟨30, 30, 70, 70⟩ ∧
    truncQ ((7 : ℚ) * (2 / 5)) = 2 ∧
    (∀ (cfg : CropConfig) (sW sH : ℤ), 0 < cfg.MarginPercent →
      cropMargin cfg sW sH =
        max cfg.Margin
          (max (truncQ ((sW : ℚ) * cfg.MarginPercent))
               (truncQ ((sH : ℚ) * cfg.MarginPercent)))) := by
  have hdet0 : detectObjectBounds testMask 10 = some ⟨4, 4, 6, 6, 2, 2, 5, 5⟩ := by
    decide
  refine ⟨?_, ?_, ?_, by norm_num [truncQ], fun cfg sW sH hpos => by
    rw [cropMargin, if_pos hpos]⟩
  · rw [cropModel_eval 100 100 testMask ⟨0, 0, 10, false⟩ 10 10 _ hdet0]
    norm_num [scaledRect, scaledBounds, cropMargin, truncQ, Rect.mk.injEq]
  · rw [cropModel_eval 100 100 testMask ⟨5, 0, 10, false⟩ 10 10 _ hdet0]
    norm_num [scaledRect, scaledBounds, cropMargin, truncQ, Rect.mk.injEq]
  · rw [cropModel_eval 100 100 testMask ⟨0, 1 / 2, 10, false⟩ 10 10 _ hdet0]
    norm_num [scaledRect, scaledBounds, cropMargin, truncQ, Rect.mk.injEq]

/-- Witness for C5 amended. -/
theorem crop_margin_trunc_spec_witness :
    0 < ((⟨0, 1 / 2, 10, false⟩ : CropConfig)).MarginPercent ∧
    cropMargin ⟨0, 1 / 2, 10, false⟩ 20 20 =
      max (0 : ℤ)
        (max (truncQ ((20 : ℚ) * (1 / 2))) (truncQ ((20 : ℚ) * (1 / 2)))) :=
  ⟨by norm_num, crop_margin_trunc_spec.2.2.2.2 ⟨0, 1 / 2, 10, false⟩ 20 20 (by norm_num)⟩

lemma squareStep_near (origW origH : ℕ) (r0 : Rect)
    (hY : r0.maxY - r0.minY < r0.maxX - r0.minX →
      0 ≤ r0.minY - ((r0.maxX - r0.minX) - (r0.maxY - r0.minY)) / 2 ∧
      r0.maxY + ((r0.maxX - r0.minX) - (r0.maxY - r0.minY)) / 2 ≤ (origH : ℤ))
    (hX : r0.maxX - r0.minX < r0.maxY - r0.minY →
      0 ≤ r0.minX - ((r0.maxY - r0.minY) - (r0.maxX - r0.minX)) / 2 ∧
      r0.maxX + ((r0.maxY - r0.minY) - (r0.maxX - r0.minX)) / 2 ≤ (origW : ℤ)) :
    ((squareStep origW origH r0).maxX - (squareStep origW origH r0).minX) -
      ((squareStep origW origH r0).maxY - (squareStep origW origH r0).minY) ≤ 1 ∧
    ((squareStep origW origH r0).maxY - (squareStep origW origH r0).minY) -
      ((squareStep origW origH r0).maxX - (squareStep origW origH r0).minX) ≤ 1 ∧
    ((squareStep origW origH r0).maxX - (squareStep origW origH r0).minX =
        (squareStep origW origH r0).maxY - (squareStep origW origH r0).minY ↔
      Even ((r0.maxX - r0.minX) - (r0.maxY - r0.minY))) := by
  rw [squareStep]
  by_cases h1 : r0.maxY - r0.minY < r0.maxX - r0.minX
  · obtain ⟨hlo, hhi⟩ := hY h1
    rw [if_pos h1]
    simp only [max_eq_right hlo, min_eq_right hhi, Int.even_iff]
    refine ⟨by omega, by omega, by omega⟩
  · rw [if_neg h1]
    by_cases h2 : r0.maxX - r0.minX < r0.maxY - r0.minY
    · obtain ⟨hlo, hhi⟩ := hX h2
      rw [if_pos h2]
      simp only [max_eq_right hlo, min_eq_right hhi, Int.even_iff]
      refine ⟨by omega, by omega, by omega⟩
    · rw [if_neg h2]
      simp only [Int.even_iff]
      refine ⟨by omega, by omega, by omega⟩

/-- C6 amended: with `SquareCrop` set, whenever the square expansion of
the margin-padded crop rectangle is not truncated by an image edge, the
returned crop's width and height differ by at most one, and they are
equal exactly when the pre-squaring width/height difference is even (the
expansion adds `diff/2` in integer division on each side, so an odd
difference loses one pixel and leaves the result off-square by exactly
one). -/
theorem crop_square_near_square :
    ∀ (origW origH : ℕ) (m : GrayImage) (cfg : CropConfig) (sx sy : ℚ) (r0 r : Rect),
      cfg.SquareCrop = true →
      marginRect origW origH m cfg sx sy = some r0 →
      cropModel origW origH (some m) cfg sx sy = Except.ok r →
      (r0.maxY - r0.minY < r0.maxX - r0.minX →
        0 ≤ r0.minY - ((r0.maxX - r0.minX) - (r0.maxY - r0.minY)) / 2 ∧
        r0.maxY + ((r0.maxX - r0.minX) - (r0.maxY - r0.minY)) / 2 ≤ (origH : ℤ)) →
      (r0.maxX - r0.minX < r0.maxY - r0.minY →
        0 ≤ r0.minX - ((r0.maxY - r0.minY) - (r0.maxX - r0.minX)) / 2 ∧
        r0.maxX + ((r0.maxY - r0.minY) - (r0.maxX - r0.minX)) / 2 ≤ (origW : ℤ)) →
      (r.maxX - r.minX) - (r.maxY - r.minY) ≤ 1 ∧
      (r.maxY - r.minY) - (r.maxX - r.minX) ≤ 1 ∧
      (r.maxX - r.minX = r.maxY - r.minY ↔
        Even ((r0.maxX - r0.minX) - (r0.maxY - r0.minY))) := by
  intro origW origH m cfg sx sy r0 r hsq hmr hok hY hX
  have hr : r = squareStep origW origH r0 := by
    rw [cropModel, hmr] at hok
    simp only [hsq, if_pos] at hok
    exact (Except.ok.inj hok).symm
  subst hr
  exact squareStep_near origW origH r0 hY hX

/-- Witness for C6 amended at the SquareCrop test instance. -/
theorem crop_square_near_square_witness :
    cropModel 100 100 (some squareTestMask) ⟨0, 0, 10, true⟩ 10 10 =
      Except.ok ⟨40, 35, 50, 45⟩ ∧
    ((50 : ℤ) - 40) - ((45 : ℤ) - 35) ≤ 1 ∧
    ((45 : ℤ) - 35) - ((50 : ℤ) - 40) ≤ 1 ∧
    ((50 : ℤ) - 40 = (45 : ℤ) - 35 ↔ Even (((50 : ℤ) - 40) - ((40 : ℤ) - 40))) := by
  have hdet : detectObjectBounds squareTestMask 10 = some ⟨4, 4, 5, 4, 1, 0, 4, 4⟩ := by
    decide
  have hsr : scaledRect 100 100 ⟨4, 4, 5, 4, 1, 0, 4, 4⟩ ⟨0, 0, 10, true⟩ 10 10 =
      ⟨40, 40, 50, 40⟩ := by
    norm_num [scaledRect, scaledBounds, cropMargin, truncQ, Rect.mk.injEq]
  have hmr : marginRect 100 100 squareTestMask ⟨0, 0, 10, true⟩ 10 10 =
      some ⟨40, 40, 50, 40⟩ := by
    rw [marginRect, hdet, Option.map_some', hsr]
  have hok : cropModel 100 100 (some squareTestMask) ⟨0, 0, 10, true⟩ 10 10 =
      Except.ok ⟨40, 35, 50, 45⟩ := by
    rw [cropModel_eval 100 100 squareTestMask ⟨0, 0, 10, true⟩ 10 10 _ hdet, if_pos rfl, hsr]
    norm_num [squareStep, Rect.mk.injEq]
  have hconc := crop_square_near_square 100 100 squareTestMask ⟨0, 0, 10, true⟩ 10 10
    ⟨40, 40, 50, 40⟩ ⟨40, 35, 50, 45⟩ rfl hmr hok (by decide) (by decide)
  exact ⟨hok, hconc.1, hconc.2.1, hconc.2.2⟩

/-- C2, evaluation of the code at the failing input: `blendParallel`
spawns two workers with the identical row range for each chunk, so every
destination row is processed by exactly two concurrent workers, not
exactly one as the specification requires (height 1 with one core, and
row 2 of height 4 with two cores, are both handled twice). -/
theorem blend_two_workers_per_row :
    workersOnRow 1 1 0 = 2 ∧ workersOnRow 4 2 2 = 2 ∧ workersOnRow 1 1 0 ≠ 1 := by
  decide

/-- C8 counterexample: on a 1×1 packed image with stored color
(200, 0, 0, 255), black reference background and tolerance 199.5, the
packed fast path classifies the pixel 0 while the generic per-pixel
fallback classifies it 255, so the two paths do not agree at every
pixel. -/
theorem bg_mask_paths_disagree :
    maskFromBackgroundPacked bgCexImg 0 0 0 (bgTolSq (399 / 2)) 0 0 = 0 ∧
    maskFromBackgroundGeneric bgCexImg 0 0 0 (bgTolSq (399 / 2)) 0 0 = 255 := by
  constructor
  · rw [maskFromBackgroundPacked, if_neg]
    norm_num [bgDistSq, bgTolSq, bgCexImg]
  · rw [maskFromBackgroundGeneric, if_pos]
    norm_num [bgDistSq, bgTolSq, bgCexImg]

/-- C8 amended: the packed fast path marks a pixel 255 exactly when the
squared distance with the stored 8-bit channels scaled by 256 (`<< 8`)
exceeds the threshold, while the generic fallback uses the full 16-bit
scaling by 257; the two paths agree at every pixel where the two scaled
distances lie on the same side of `tolerance² × 257²`. -/
theorem bg_mask_scaling_spec :
    ∀ (img : PackedImage) (bgR bgG bgB : ℤ) (tolSq : ℚ) (x y : ℕ),
      (maskFromBackgroundPacked img bgR bgG bgB tolSq x y = 255 ↔
        tolSq < (bgDistSq img 256 bgR bgG bgB x y : ℚ)) ∧
      (maskFromBackgroundGeneric img bgR bgG bgB tolSq x y = 255 ↔
        tolSq < (bgDistSq img 257 bgR bgG bgB x y : ℚ)) ∧
      ((tolSq < (bgDistSq img 256 bgR bgG bgB x y : ℚ) ↔
          tolSq < (bgDistSq img 257 bgR bgG bgB x y : ℚ)) →
        maskFromBackgroundPacked img bgR bgG bgB tolSq x y =
          maskFromBackgroundGeneric img bgR bgG bgB tolSq x y) := by
  intro img bgR bgG bgB tolSq x y
  unfold maskFromBackgroundPacked maskFromBackgroundGeneric
  by_cases h1 : tolSq < (bgDistSq img 256 bgR bgG bgB x y : ℚ) <;>
    by_cases h2 : tolSq < (bgDistSq img 257 bgR bgG bgB x y : ℚ) <;>
      simp [h1, h2]

/-- Witness for C8 amended. -/
theorem bg_mask_scaling_spec_witness :
    maskFromBackgroundPacked bgCexImg 0 0 0 0 0 0 =
      maskFromBackgroundGeneric bgCexImg 0 0 0 0 0 0 :=
  (bg_mask_scaling_spec bgCexImg 0 0 0 0 0 0).2.2
    (by norm_num [bgDistSq, bgCexImg])

lemma blurBuffer_get_len (buf : blurBuffer) (size : ℕ) :
    (buf.get size).tmpLen = size ∧ (buf.get size).hPassLen = size := by
  rw [blurBuffer.get]
  split <;> exact ⟨rfl, rfl⟩

lemma blurBuffer_get_cap_mono (buf : blurBuffer) (size : ℕ) :
    buf.tmpCap ≤ (buf.get size).tmpCap := by
  rw [blurBuffer.get]
  split
  · next h => exact Nat.le_of_lt h
  · exact le_refl _

lemma blurBuffer_get_cap_ge (buf : blurBuffer) (size : ℕ) :
    size ≤ (buf.get size).tmpCap := by
  rw [blurBuffer.get]
  split
  · exact le_refl _
  · next h => exact Nat.le_of_not_lt h

lemma blurBuffer_foldl_cap_mono (sizes : List ℕ) (buf : blurBuffer) :
    buf.tmpCap ≤ (sizes.foldl blurBuffer.get buf).tmpCap := by
  induction sizes generalizing buf with
  | nil => exact le_refl _
  | cons a t ih =>
    exact le_trans (blurBuffer_get_cap_mono buf a) (ih (buf.get a))

/-- C9: `get(size)` returns a buffer whose `tmp` and `hPass` slices both
have length exactly `size`; the capacity never decreases across a `get`;
and over any sequence of `get` operations the capacity stays at or above
every previously requested size (the high-water mark). -/
theorem blurBuffer_pool_spec :
    (∀ (buf : blurBuffer) (size : ℕ),
      (buf.get size).tmpLen = size ∧ (buf.get size).hPassLen = size) ∧
    (∀ (buf : blurBuffer) (size : ℕ), buf.tmpCap ≤ (buf.get size).tmpCap) ∧
    (∀ (sizes : List ℕ) (buf : blurBuffer) (s : ℕ), s ∈ sizes →
      s ≤ (sizes.foldl blurBuffer.get buf).tmpCap) := by
  refine ⟨blurBuffer_get_len, blurBuffer_get_cap_mono, ?_⟩
  intro sizes
  induction sizes with
  | nil =>
    intro buf s hs
    exact absurd hs (List.not_mem_nil s)
  | cons a t ih =>
    intro buf s hs
    rcases List.mem_cons.mp hs with rfl | hs2
    · exact le_trans (blurBuffer_get_cap_ge buf s) (blurBuffer_foldl_cap_mono t (buf.get s))
    · exact ih (buf.get a) s hs2

/-- Witness for C9: the spec's 100 → 200 → 50 scenario. -/
theorem blurBuffer_pool_spec_witness :
    (blurBuffer.new.get 100).tmpLen = 100 ∧
    blurBuffer.new.tmpCap ≤ (blurBuffer.new.get 100).tmpCap ∧
    200 ≤ (([100, 200, 50] : List ℕ).foldl blurBuffer.get blurBuffer.new).tmpCap :=
  ⟨(blurBuffer_pool_spec.1 blurBuffer.new 100).1,
   blurBuffer_pool_spec.2.1 blurBuffer.new 100,
   blurBuffer_pool_spec.2.2 [100, 200, 50] blurBuffer.new 200 (by decide)⟩

/-- C4, evaluation of the code at the failing index: the `init` loop
`for i := range 255` populates only entries 0..254, so `sigmoidLUT[255]`
keeps the zero value instead of the sigmoid of 6; the table is therefore
not fully populated and not monotonically non-decreasing. -/
theorem sigmoidLUT_off_by_one :
    sigmoidLUT 255 = 0 ∧ 0 < sigmoidLUT 254 ∧ ¬ Monotone sigmoidLUT := by
  have h255 : sigmoidLUT 255 = 0 := by
    rw [sigmoidLUT, if_neg]
    norm_num
  have h254 : 0 < sigmoidLUT 254 := by
    rw [sigmoidLUT, if_pos (by norm_num)]
    positivity
  refine ⟨h255, h254, fun hm => ?_⟩
  have := hm (show (254 : ℕ) ≤ 255 by norm_num)
  rw [h255] at this
  exact absurd this (not_le.mpr h254)

lemma otsuGo_succ (hist : ℕ → ℕ) (total sum fuel t : ℕ) (s : OtsuState) :
    otsuGo hist total sum (fuel + 1) t s =
      (let wB := s.wB + hist t
       if wB = 0 then otsuGo hist total sum fuel (t + 1) { s with wB := wB }
       else
         let wF : ℤ := (total : ℤ) - (wB : ℤ)
         if wF = 0 then { s with wB := wB }
         else
           let sumB := s.sumB + t * hist t
           let mB : ℚ := (sumB : ℚ) / (wB : ℚ)
           let mF : ℚ := ((sum : ℚ) - (sumB : ℚ)) / (wF : ℚ)
           let varBetween : ℚ := (wB : ℚ) * (wF : ℚ) * (mB - mF) * (mB - mF)
           if s.varMax < varBetween then
             otsuGo hist total sum fuel (t + 1) ⟨sumB, wB, varBetween, t⟩
           else
             otsuGo hist total sum fuel (t + 1) { s with sumB := sumB, wB := wB }) :=
  rfl

lemma binIndex_seven : binIndex 7 = 276 := by
  norm_num [binIndex, truncQ]

lemma binOf_seven : binOf 7 = none := by
  rw [binOf]
  norm_num [binIndex_seven]

lemma binIndex_six : binIndex 6 = 255 := by
  norm_num [binIndex, truncQ]

lemma binOf_six : binOf 6 = some 0 := by
  simp only [binOf, binIndex_six]
  norm_num [sigmoidLUT, truncR]

lemma exp_six_gt : (254 : ℝ) < Real.exp 6 := by
  have h1 : (2.7182818283 : ℝ) < Real.exp 1 := Real.exp_one_gt_d9
  have h6 : Real.exp 6 = Real.exp 1 ^ 6 := by
    rw [← Real.exp_nat_mul]
    norm_num
  rw [h6]
  calc (254 : ℝ) < 2.7182818283 ^ 6 := by norm_num
    _ < Real.exp 1 ^ 6 := by gcongr

lemma binIndex_neg_six : binIndex (-6) = 0 := by
  norm_num [binIndex, truncQ]

lemma binOf_neg_six : binOf (-6) = some 0 := by
  simp only [binOf, binIndex_neg_six]
  have hlut : sigmoidLUT 0 = (1 + Real.exp 6)⁻¹ := by
    rw [sigmoidLUT, if_pos (by norm_num)]
    norm_num
  have hpos : (0 : ℝ) < 1 + Real.exp 6 := by positivity
  have hs0 : (0 : ℝ) ≤ sigmoidLUT 0 * 255 := by
    rw [hlut]
    positivity
  have hs1 : sigmoidLUT 0 * 255 < 1 := by
    rw [hlut]
    rw [inv_mul_lt_iff₀ hpos, mul_one]
    linarith [exp_six_gt]
  have hfloor : truncR (sigmoidLUT 0 * 255) = 0 := by
    rw [truncR, if_neg (not_lt.mpr hs0)]
    exact Int.floor_eq_zero_iff.mpr ⟨hs0, hs1⟩
  norm_num [hfloor]

lemma binIndex_three : binIndex 3 = 191 := by
  norm_num [binIndex, truncQ]

lemma binOf_three : ∃ b : ℕ, binOf 3 = some b ∧ 1 ≤ b ∧ b ≤ 254 := by
  have harg : -((191 : ℝ) / 255 * 12 - 6) = -(762 / 255) := by norm_num
  have hlut : sigmoidLUT 191 = (1 + Real.exp (-(762 / 255)))⁻¹ := by
    rw [sigmoidLUT, if_pos (by norm_num)]
    norm_num
  have hexp_pos : (0 : ℝ) < Real.exp (-(762 / 255)) := Real.exp_pos _
  have hexp_lt : Real.exp (-(762 / 255)) < 1 := by
    rw [Real.exp_lt_one_iff]
    norm_num
  have hden : (0 : ℝ) < 1 + Real.exp (-(762 / 255)) := by positivity
  have hs_lo : (127 : ℝ) ≤ sigmoidLUT 191 * 255 := by
    rw [hlut]
    rw [inv_mul_eq_div, le_div_iff₀ hden]
    nlinarith
  have hs_hi : sigmoidLUT 191 * 255 < 255 := by
    rw [hlut]
    rw [inv_mul_eq_div, div_lt_iff₀ hden]
    nlinarith
  have hs0 : (0 : ℝ) ≤ sigmoidLUT 191 * 255 := by linarith
  have hf_lo : (127 : ℤ) ≤ ⌊sigmoidLUT 191 * 255⌋ := Int.le_floor.mpr (by exact_mod_cast hs_lo)
  have hf_hi : ⌊sigmoidLUT 191 * 255⌋ < 255 := Int.floor_lt.mpr (by exact_mod_cast hs_hi)
  refine ⟨(min 255 (max 0 (truncR (sigmoidLUT 191 * 255)))).toNat, ?_, ?_, ?_⟩
  · simp only [binOf, binIndex_three]
    rw [if_pos (by norm_num), show ((191 : ℤ).toNat) = (191 : ℕ) from rfl]
  · rw [truncR, if_neg (not_lt.mpr hs0)]
    omega
  · rw [truncR, if_neg (not_lt.mpr hs0)]
    omega

lemma otsuGo_threshold_le (hist : ℕ → ℕ) (total sum : ℕ) :
    ∀ (fuel t : ℕ) (s : OtsuState), s.threshold ≤ 254 → t + fuel ≤ 255 →
      (otsuGo hist total sum fuel t s).threshold ≤ 254 := by
  intro fuel
  induction fuel with
  | zero => intro t s hs _; exact hs
  | succ n ih =>
    intro t s hs ht
    rw [otsuGo_succ]
    simp only []
    split
    · exact ih (t + 1) _ hs (by omega)
    · split
      · exact hs
      · split
        · exact ih (t + 1) _ (show t ≤ 254 by omega) (by omega)
        · exact ih (t + 1) _ hs (by omega)

lemma otsuGo_two_mid (hist : ℕ → ℕ) (b : ℕ) (hb1 : 1 ≤ b)
    (hbv : hist b = 1) (hother : ∀ u, u ≠ 0 → u ≠ b → hist u = 0) :
    ∀ fuel t, 1 ≤ t → t ≤ b → b < t + fuel →
      (otsuGo hist 2 b fuel t ⟨0, 1, (b : ℚ) * (b : ℚ), 0⟩).threshold = 0 := by
  intro fuel
  induction fuel with
  | zero =>
    intro t h1 h2 h3
    omega
  | succ n ih =>
    intro t h1 h2 h3
    rw [otsuGo_succ]
    by_cases hteq : t = b
    · subst hteq
      simp only [hbv]
      norm_num
    · have h0 : hist t = 0 := hother t (by omega) hteq
      simp only [h0, Nat.mul_zero, Nat.add_zero]
      norm_num
      exact ih (t + 1) (by omega) (by omega) (by omega)

lemma otsuGo_two_point (hist : ℕ → ℕ) (b : ℕ) (hb1 : 1 ≤ b) (hb2 : b ≤ 254)
    (h0v : hist 0 = 1) (hbv : hist b = 1)
    (hother : ∀ u, u ≠ 0 → u ≠ b → hist u = 0) :
    (otsuGo hist 2 b 255 0 ⟨0, 0, 0, 0⟩).threshold = 0 := by
  rw [show (255 : ℕ) = 254 + 1 from rfl, otsuGo_succ]
  simp only [h0v]
  norm_num
  rw [if_neg (show ¬ b = 0 by omega)]
  exact otsuGo_two_mid hist b hb1 hbv hother 254 1 le_rfl hb1 (by omega)

lemma otsuGo_single_low (hist : ℕ → ℕ) (sum : ℕ) (h0v : hist 0 = 1) :
    (otsuGo hist 1 sum 255 0 ⟨0, 0, 0, 0⟩).threshold = 0 := by
  rw [show (255 : ℕ) = 254 + 1 from rfl, otsuGo_succ]
  simp only [h0v]
  norm_num

lemma otsuThreshold_six : otsuThreshold [6] = some 0 := by
  have hbins : histBins [6] = some [0] := by
    simp [histBins, binOf_six]
  rw [otsuThreshold, hbins, Option.map_some']
  have hcore : otsuCore (fun t => ([0] : List ℕ).count t) 1 = 0 := by
    rw [otsuCore]
    exact otsuGo_single_low _ _ (by simp)
  norm_num [hcore]

/-- C1 counterexample: the logit sequence [-6, 3] produces a histogram
with mass in bin 0 and mass in a bin strictly above the selected split 0
(one value binned low, one binned high), yet `otsuThreshold` returns
exactly 0, not a value strictly greater than 0. -/
theorem otsu_zero_threshold_counterexample :
    otsuThreshold [-6, 3] = some 0 ∧
    ∃ bins b, histBins [-6, 3] = some bins ∧ 0 < b ∧
      1 ≤ bins.count 0 ∧ 1 ≤ bins.count b := by
  obtain ⟨b, hb, hb1, hb2⟩ := binOf_three
  have hbne : b ≠ 0 := by omega
  have hbins : histBins [-6, 3] = some [0, b] := by
    simp [histBins, binOf_neg_six, hb]
  have hc0 : ([0, b] : List ℕ).count 0 = 1 := by
    simp [List.count_cons, hbne]
  have hcb : ([0, b] : List ℕ).count b = 1 := by
    simp [List.count_cons, hbne]
  have hcother : ∀ u, u ≠ 0 → u ≠ b → ([0, b] : List ℕ).count u = 0 := by
    intro u hu0 hub
    simp [List.count_cons, hu0, hub]
  have hsum : otsuSum (fun t => ([0, b] : List ℕ).count t) = b := by
    rw [otsuSum, Finset.sum_eq_single b]
    · rw [hcb, mul_one]
    · intro u _ hub
      by_cases hu0 : u = 0
      · subst hu0
        exact zero_mul _
      · rw [hcother u hu0 hub, mul_zero]
    · intro hbnot
      exact absurd (Finset.mem_range.mpr (by omega)) hbnot
  have hcore : otsuCore (fun t => ([0, b] : List ℕ).count t) 2 = 0 := by
    rw [otsuCore, hsum]
    exact otsuGo_two_point _ b hb1 hb2 hc0 hcb hcother
  constructor
  · rw [otsuThreshold, hbins, Option.map_some']
    norm_num [hcore]
  · exact ⟨[0, b], b, hbins, by omega, le_of_eq hc0.symm, le_of_eq hcb.symm⟩

/-- C1 amended: for every input sequence on which `otsuThreshold` returns
a threshold at all, the returned threshold lies in `[0, 1)`: it is
non-negative and strictly less than 1 (the selected split is at most
254, so the result is at most 254/255); it is not in general strictly
positive, since the split 0 can maximize the between-class variance. -/
theorem otsu_threshold_range :
    ∀ (data : List ℚ) (q : ℚ), otsuThreshold data = some q → 0 ≤ q ∧ q < 1 := by
  intro data q h
  rw [otsuThreshold] at h
  cases hbins : histBins data with
  | none =>
    rw [hbins] at h
    exact Option.noConfusion h
  | some bins =>
    rw [hbins, Option.map_some'] at h
    have hq := (Option.some.inj h).symm
    subst hq
    have hle : otsuCore (fun t => bins.count t) data.length ≤ 254 := by
      rw [otsuCore]
      exact otsuGo_threshold_le _ _ _ 255 0 ⟨0, 0, 0, 0⟩ (by norm_num) (by norm_num)
    constructor
    · positivity
    · rw [div_lt_one (by norm_num)]
      calc ((otsuCore (fun t => bins.count t) data.length : ℚ)) ≤ 254 := by
            exact_mod_cast hle
        _ < 255 := by norm_num

/-- Witness for C1 amended. -/
theorem otsu_threshold_range_witness :
    otsuThreshold [6] = some 0 ∧ 0 ≤ (0 : ℚ) ∧ (0 : ℚ) < 1 :=
  ⟨otsuThreshold_six, (otsu_threshold_range [6] 0 otsuThreshold_six).1,
   (otsu_threshold_range [6] 0 otsuThreshold_six).2⟩

/-- C3, evaluation of the code at the failing input: for the logit value
7.0 the lookup-table index `int((v+6)/12*255)` evaluates to 276, which is
not clamped to `[0, 255]` (only the bin value after the table lookup is
clamped), so the histogram loop indexes the 256-entry sigmoid table out
of bounds — a runtime panic, modelled as `none`.  `otsuThreshold` is
therefore not total on logit values outside roughly [-6, 6]. -/
theorem otsu_unclamped_index :
    binIndex 7 = 276 ∧ ¬ (0 ≤ binIndex 7 ∧ binIndex 7 < 256) ∧
    otsuThreshold [7] = none := by
  refine ⟨binIndex_seven, by rw [binIndex_seven]; norm_num, ?_⟩
  have hbins : histBins [7] = none := by
    simp [histBins, binOf_seven]
  rw [otsuThreshold, hbins, Option.map_none']


end RMBG
